import Mathlib

-- Verification of the control-point manager and topology utilities of the
-- NURBS-Python repository (src/geomdl/control_points.py, src/geomdl/utilities.py),
-- via a shallow embedding into Lean.
--
-- Modelling conventions:
--   - Python floats (GeomdlFloat) are modelled as exact rationals; none of the
--     verified claims depends on rounding of binary floating point.
--   - Python exceptions are modelled by Option: a function that can raise
--     returns none on every raising path (GeomdlError, TypeError, ValueError,
--     IndexError, KeyError alike).  A failing call yields no successor state.
--   - Python dicts that keep insertion order (GeomdlDict) are association lists.
--   - A Python tuple of floats is a List of rationals; the empty placeholder
--     tuple () used for an unset control point is the empty list.

set_option maxRecDepth 4000

/-- Attached per-point data is either a scalar float or a vector of floats,
mirroring the two shapes stored by default_ctrlpts_init. -/
inductive PtValue where
  | scalar (x : ℚ)
  | vector (xs : List ℚ)
deriving DecidableEq, Repr

/-- Embedding of default_find_index (control_points.py lines 35-42):
idx = sum over i of args[i] * (product of pts_size[:i]), the inner loop
"for j in pts_size[:i]: mul_res *= j" being the prefix product. -/
def default_find_index (pts_size : List Nat) (args : List Nat) : Nat :=
  ((List.range args.length).map
    (fun i => args.getD i 0 * (pts_size.take i).prod)).sum

theorem default_find_index_nil (pts_size : List Nat) :
    default_find_index pts_size [] = 0 := rfl

theorem default_find_index_cons (s : Nat) (ss : List Nat) (c : Nat) (cs : List Nat) :
    default_find_index (s :: ss) (c :: cs) = c + s * default_find_index ss cs := by
  unfold default_find_index
  rw [List.length_cons, List.range_succ_eq_map]
  simp only [List.map_cons, List.map_map, List.sum_cons]
  have h2 : (List.range cs.length).map
        ((fun i => (c :: cs).getD i 0 * ((s :: ss).take i).prod) ∘ Nat.succ)
      = (List.range cs.length).map (fun i => s * (cs.getD i 0 * (ss.take i).prod)) := by
    apply List.map_congr_left
    intro i _
    simp [List.getD, List.prod_cons]
    ring
  rw [h2]
  rw [List.sum_map_mul_left]
  simp [List.getD]

theorem default_find_index_lt_prod {cs sizes : List Nat}
    (h : List.Forall₂ (fun c s => c < s) cs sizes) :
    default_find_index sizes cs < sizes.prod := by
  induction h with
  | nil => simp [default_find_index]
  | cons hcs _ ih =>
    rename_i c s cs' ss' _
    rw [default_find_index_cons, List.prod_cons]
    calc c + s * default_find_index ss' cs'
        < s + s * default_find_index ss' cs' := by omega
      _ = s * (default_find_index ss' cs' + 1) := by ring
      _ ≤ s * ss'.prod := Nat.mul_le_mul_left s ih

theorem default_find_index_injOn {cs ds sizes : List Nat}
    (hc : List.Forall₂ (fun c s => c < s) cs sizes)
    (hd : List.Forall₂ (fun c s => c < s) ds sizes)
    (heq : default_find_index sizes cs = default_find_index sizes ds) : cs = ds := by
  induction hc generalizing ds with
  | nil =>
    cases hd
    rfl
  | cons hcs _ ih =>
    rename_i c s cs' ss' _
    cases hd with
    | cons hds hds' =>
      rename_i d ds'
      rw [default_find_index_cons, default_find_index_cons] at heq
      have hs : 0 < s := Nat.lt_of_le_of_lt (Nat.zero_le c) hcs
      have hmod : c = d := by
        have h1 := congrArg (fun t => t % s) heq
        simpa [Nat.add_mul_mod_self_left, Nat.mod_eq_of_lt hcs, Nat.mod_eq_of_lt hds] using h1
      subst hmod
      have htail : default_find_index ss' cs' = default_find_index ss' ds' :=
        Nat.eq_of_mul_eq_mul_left hs (by omega)
      rw [ih hds' htail]

theorem default_find_index_surjOn {sizes : List Nat} {n : Nat} (hn : n < sizes.prod) :
    ∃ cs, List.Forall₂ (fun c s => c < s) cs sizes ∧ default_find_index sizes cs = n := by
  induction sizes generalizing n with
  | nil =>
    refine ⟨[], List.Forall₂.nil, ?_⟩
    simp [List.prod_nil] at hn
    simp [default_find_index, hn]
  | cons s ss ih =>
    rw [List.prod_cons] at hn
    have hs : 0 < s := by
      rcases Nat.eq_zero_or_pos s with h0 | h0
      · subst h0; simp at hn
      · exact h0
    have hq : n / s < ss.prod := by
      rw [Nat.div_lt_iff_lt_mul hs, Nat.mul_comm]
      exact hn
    obtain ⟨cs', hfor, hval⟩ := ih hq
    refine ⟨n % s :: cs', List.Forall₂.cons (Nat.mod_lt n hs) hfor, ?_⟩
    rw [default_find_index_cons, hval, Nat.mod_add_div]

/-- C4: for every shape of positive integers, default_find_index computes the
mixed-radix sum (its very definition transliterates the source loop) and,
restricted to coordinate tuples that are pointwise in range, it is a bijection
onto the linear index range below count = prod(sizes): it lands below the
product, it is injective there, and every linear index is hit. -/
theorem default_find_index_bijective (sizes : List Nat)
    (hpos : ∀ s ∈ sizes, 0 < s) :
    (∀ cs, List.Forall₂ (fun c s => c < s) cs sizes →
        default_find_index sizes cs < sizes.prod)
    ∧ (∀ cs ds, List.Forall₂ (fun c s => c < s) cs sizes →
        List.Forall₂ (fun c s => c < s) ds sizes →
        default_find_index sizes cs = default_find_index sizes ds → cs = ds)
    ∧ (∀ n, n < sizes.prod →
        ∃ cs, List.Forall₂ (fun c s => c < s) cs sizes
          ∧ default_find_index sizes cs = n) :=
  ⟨fun _ hc => default_find_index_lt_prod hc,
   fun _ _ hc hd heq => default_find_index_injOn hc hd heq,
   fun _ hn => default_find_index_surjOn hn⟩

/-- Witness for C4 at the concrete shape (6, 7, 11) from the source docstring:
the hypotheses hold and the mapper sends the in-range coordinate (2, 1, 5) to
2 + 6*1 + 42*5 = 218, which the surjectivity part hits again. -/
theorem default_find_index_bijective_witness :
    (∀ s ∈ [6, 7, 11], 0 < s)
    ∧ default_find_index [6, 7, 11] [2, 1, 5] < ([6, 7, 11] : List Nat).prod
    ∧ (∃ cs, List.Forall₂ (fun c s => c < s) cs [6, 7, 11]
        ∧ default_find_index [6, 7, 11] cs = 218) :=
  ⟨by decide,
   (default_find_index_bijective [6, 7, 11] (by decide)).1 [2, 1, 5] (by decide),
   (default_find_index_bijective [6, 7, 11] (by decide)).2.2 218 (by decide)⟩

/-- Embedding of default_ctrlpts_init (control_points.py lines 55-62):
num_ctrlpts empty placeholder tuples, and for each declared attribute name
with arity v a count-length array of zero vectors (v > 1) or zero scalars. -/
def default_ctrlpts_init (num_ctrlpts : Nat) (kwargs : List (String × Nat)) :
    List (List ℚ) × List (String × List PtValue) :=
  (List.replicate num_ctrlpts [],
   kwargs.map (fun kv =>
     (kv.1,
      if kv.2 > 1 then List.replicate num_ctrlpts (PtValue.vector (List.replicate kv.2 0))
      else List.replicate num_ctrlpts (PtValue.scalar 0))))

/-- Embedding of default_ctrlpt_set (control_points.py line 98):
pts_arr[idx] = tuple(cpt).  Python list assignment raises IndexError when the
index is out of range, modelled by none. -/
def default_ctrlpt_set (pts_arr : List (List ℚ)) (idx : Nat) (cpt : List ℚ) :
    Option (List (List ℚ)) :=
  if idx < pts_arr.length then some (pts_arr.set idx cpt) else none

/-- Loop body of default_ctrlpts_set: walk pts_in with a running index, check
each input point has length dim (GeomdlError otherwise, the sequence-type
check being carried by the List type), and write it via default_ctrlpt_set. -/
def ctrlpts_set_go (dim : Nat) :
    List (List ℚ) → Nat → List (List ℚ) → Option (List (List ℚ))
  | [], _, pts_out => some pts_out
  | cpt :: rest, idx, pts_out =>
    if cpt.length ≠ dim then none
    else
      match default_ctrlpt_set pts_out idx cpt with
      | none => none
      | some pts_out2 => ctrlpts_set_go dim rest (idx + 1) pts_out2

/-- Embedding of default_ctrlpts_set (control_points.py lines 79-85). -/
def default_ctrlpts_set (pts_in : List (List ℚ)) (dim : Nat)
    (pts_out : List (List ℚ)) : Option (List (List ℚ)) :=
  ctrlpts_set_go dim pts_in 0 pts_out

/-- State of a CPManager (control_points.py lines 149-404) under the default
storage backend and index mapper.  dimension comes from the base class.
Modelled from the spec: GeomdlBase leaves the spatial dimension unset (0) at
construction and it is inferred lazily from the first point assigned; the base
object identity/name/option store plays no role in the verified claims and is
not carried. -/
structure CPManager where
  size : List Nat
  count : Nat
  dimension : Nat
  pts : List (List ℚ)
  ptsd : List (String × List PtValue)
  is_changed : Bool
deriving DecidableEq, Repr

/-- Embedding of CPManager.__init__ (control_points.py lines 200-212): sizes
are stored unvalidated (the source only applies int() to each argument, which
a Nat already is), count is reduce(mul, size) - a TypeError, hence none, on an
empty argument list - and storage is allocated by default_ctrlpts_init with
the change flag cleared.  No positivity or range check appears in the source. -/
def CPManager.construct (args : List Nat) (kwargs : List (String × Nat)) :
    Option CPManager :=
  match args with
  | [] => none
  | a :: rest =>
    let cnt := rest.foldl (fun x y => x * y) a
    let pd := default_ctrlpts_init cnt kwargs
    some { size := a :: rest, count := cnt, dimension := 0,
           pts := pd.1, ptsd := pd.2, is_changed := false }

/-- Index argument of __setitem__/__getitem__: a linear int or a coordinate
tuple (any other type raises TypeError in the source, carried here by the
inductive being exhaustive). -/
inductive CPKey where
  | int (i : Nat)
  | tup (t : List Nat)
deriving DecidableEq, Repr

/-- Embedding of CPManager.__setitem__ (control_points.py lines 245-266): the
value must be a sequence (type-level here); if the dimension is unset (< 1) it
is inferred as len(value); a value whose length then differs from the dimension
raises; an int key writes directly, a tuple key of the arity of size resolves
through default_find_index; on success the change flag is set. -/
def CPManager.setitem (m : CPManager) (key : CPKey) (value : List ℚ) :
    Option CPManager :=
  let dim := if m.dimension < 1 then value.length else m.dimension
  if value.length ≠ dim then none
  else
    match key with
    | CPKey.int i =>
      match default_ctrlpt_set m.pts i value with
      | none => none
      | some pts2 => some { m with pts := pts2, dimension := dim, is_changed := true }
    | CPKey.tup t =>
      if t.length ≠ m.size.length then none
      else
        match default_ctrlpt_set m.pts (default_find_index m.size t) value with
        | none => none
        | some pts2 => some { m with pts := pts2, dimension := dim, is_changed := true }

/-- Embedding of the points property setter (control_points.py lines 289-302):
sequence check is type-level; the length must equal count; if the dimension is
unset it is inferred as len(value[0]) - an IndexError, hence none, when value
is empty; the store is filled through default_ctrlpts_set and the change flag
is set. -/
def CPManager.setPoints (m : CPManager) (value : List (List ℚ)) :
    Option CPManager :=
  if value.length ≠ m.count then none
  else
    match (if m.dimension < 1 then value.head?.map List.length else some m.dimension) with
    | none => none
    | some dim =>
      match default_ctrlpts_set value dim m.pts with
      | none => none
      | some pts2 => some { m with pts := pts2, dimension := dim, is_changed := true }

/-- Embedding of CPManager.set_pt (control_points.py lines 358-365): tuple
indexed assignment followed by setting the change flag again. -/
def CPManager.set_pt (m : CPManager) (pt : List ℚ) (args : List Nat) :
    Option CPManager :=
  match m.setitem (CPKey.tup args) pt with
  | none => none
  | some m2 => some { m2 with is_changed := true }

/-- Embedding of CPManager.ptdata (control_points.py lines 367-381): resolve
the index through the mapper, then read self.ptsd[dkey][idx]; both KeyError
(unknown key) and IndexError (index past the array) are caught and give None,
modelled by none. -/
def CPManager.ptdata (m : CPManager) (dkey : String) (args : List Nat) :
    Option PtValue :=
  let idx := default_find_index m.size args
  match m.ptsd.lookup dkey with
  | none => none
  | some arr => arr.get? idx

/-- Element-wise write of one attached value at one index, the inner body of
set_ptdata: a sequence value overwrites the leading entries of the stored
vector (IndexError past its end, TypeError on a stored scalar), a scalar value
replaces the stored entry; an index past the array raises IndexError. -/
def set_ptdata_write (arr : List PtValue) (idx : Nat) (val : PtValue) :
    Option (List PtValue) :=
  match val with
  | PtValue.vector xs =>
    match arr.get? idx with
    | none => none
    | some (PtValue.vector ys) =>
      if xs.length ≤ ys.length then
        some (arr.set idx (PtValue.vector (xs ++ ys.drop xs.length)))
      else none
    | some (PtValue.scalar _) => none
  | PtValue.scalar x =>
    if idx < arr.length then some (arr.set idx (PtValue.scalar x)) else none

/-- Replace the binding of key k in the attached-data association list. -/
def updateAssoc (l : List (String × List PtValue)) (k : String)
    (v : List PtValue) : List (String × List PtValue) :=
  l.map (fun kv => if kv.1 = k then (k, v) else kv)

/-- Loop of CPManager.set_ptdata over the items of adct: an undeclared key is
a GeomdlError, a successful write sets the change flag; the uncaught-raise
model is atomic, discarding the partially mutated state of the source. -/
def set_ptdata_go (idx : Nat) :
    List (String × PtValue) → List (String × List PtValue) → Bool →
      Option (List (String × List PtValue) × Bool)
  | [], ptsd, ch => some (ptsd, ch)
  | (k, val) :: rest, ptsd, ch =>
    match ptsd.lookup k with
    | none => none
    | some arr =>
      match set_ptdata_write arr idx val with
      | none => none
      | some arr2 => set_ptdata_go idx rest (updateAssoc ptsd k arr2) true

/-- Embedding of CPManager.set_ptdata (control_points.py lines 383-404). -/
def CPManager.set_ptdata (m : CPManager) (adct : List (String × PtValue))
    (args : List Nat) : Option CPManager :=
  let idx := default_find_index m.size args
  match set_ptdata_go idx adct m.ptsd m.is_changed with
  | none => none
  | some pr => some { m with ptsd := pr.1, is_changed := pr.2 }

/-- Embedding of CPManager.reset (control_points.py lines 343-348): the call
to super().reset is modelled from the spec as touching only the base-class
option store, which this state does not carry; the call on line 348 invokes
func_pts_init but never stores the returned pair, so the manager state is
returned unchanged. -/
def CPManager.reset (m : CPManager) (kwargs : List (String × Nat)) : CPManager :=
  let _discarded := default_ctrlpts_init m.count kwargs
  m

/-- Embedding of CPManager.reset_changed (control_points.py lines 350-352). -/
def CPManager.reset_changed (m : CPManager) : CPManager :=
  { m with is_changed := false }

theorem construct_count_eq_prod (a : Nat) (rest : List Nat) :
    rest.foldl (fun x y => x * y) a = (a :: rest).prod := by
  induction rest generalizing a with
  | nil => simp
  | cons b t ih =>
    rw [List.foldl_cons, ih (a * b)]
    simp [List.prod_cons]
    ring

theorem set_ptdata_go_flag_true {idx : Nat} :
    ∀ (l : List (String × PtValue)) (ptsd : List (String × List PtValue))
      (pr : List (String × List PtValue) × Bool),
      set_ptdata_go idx l ptsd true = some pr → pr.2 = true := by
  intro l
  induction l with
  | nil =>
    intro ptsd pr h
    simp only [set_ptdata_go, Option.some.injEq] at h
    rw [← h]
  | cons kv rest ih =>
    intro ptsd pr h
    obtain ⟨k, val⟩ := kv
    simp only [set_ptdata_go] at h
    split at h
    · exact absurd h (by simp)
    · split at h
      · exact absurd h (by simp)
      · exact ih _ pr h

theorem setitem_sets_flag (m : CPManager) (key : CPKey) (value : List ℚ)
    (m2 : CPManager) (h : m.setitem key value = some m2) : m2.is_changed = true := by
  simp only [CPManager.setitem] at h
  split at h
  all_goals try split at h
  all_goals try split at h
  all_goals try split at h
  all_goals try split at h
  all_goals first
    | (injection h; done)
    | (injection h with h2; exact h2 ▸ rfl)

theorem setPoints_sets_flag (m : CPManager) (value : List (List ℚ))
    (m2 : CPManager) (h : m.setPoints value = some m2) : m2.is_changed = true := by
  simp only [CPManager.setPoints] at h
  split at h
  all_goals try split at h
  all_goals try split at h
  all_goals try split at h
  all_goals first
    | (injection h; done)
    | (injection h with h2; exact h2 ▸ rfl)

theorem set_ptdata_sets_flag (m : CPManager) (adct : List (String × PtValue))
    (args : List Nat) (m2 : CPManager) (hne : adct ≠ [])
    (h : m.set_ptdata adct args = some m2) : m2.is_changed = true := by
  simp only [CPManager.set_ptdata] at h
  split at h
  · exact absurd h (by simp)
  · rename_i pr hgo
    injection h with h2
    rw [← h2]
    show pr.2 = true
    cases adct with
    | nil => exact absurd rfl hne
    | cons kv rest =>
      obtain ⟨k, val⟩ := kv
      simp only [set_ptdata_go] at hgo
      split at hgo
      · exact absurd hgo (by simp)
      · split at hgo
        · exact absurd hgo (by simp)
        · exact set_ptdata_go_flag_true rest _ pr hgo

/-- C5: the change flag is false right after construction and right after
reset_changed, and true after every successful single point set (int or tuple
key), bulk points assignment, or attached-data set through set_ptdata with at
least one item to write. -/
theorem is_changed_lifecycle :
    (∀ args kwargs m, CPManager.construct args kwargs = some m →
        m.is_changed = false)
    ∧ (∀ m : CPManager, m.reset_changed.is_changed = false)
    ∧ (∀ m key value m2, CPManager.setitem m key value = some m2 →
        m2.is_changed = true)
    ∧ (∀ m value m2, CPManager.setPoints m value = some m2 →
        m2.is_changed = true)
    ∧ (∀ m adct args m2, adct ≠ [] →
        CPManager.set_ptdata m adct args = some m2 → m2.is_changed = true) := by
  refine ⟨?_, ?_, ?_, ?_, ?_⟩
  · intro args kwargs m h
    cases args with
    | nil => exact absurd h (by simp [CPManager.construct])
    | cons a rest =>
      simp only [CPManager.construct, Option.some.injEq] at h
      rw [← h]
  · intro m
    rfl
  · exact setitem_sets_flag
  · exact setPoints_sets_flag
  · exact set_ptdata_sets_flag

/-- A concrete manager state with one declared scalar attribute, used by the
witnesses below: shape (2,), two unset points, attribute array (0, 7). -/
def mgrD : CPManager :=
  { size := [2], count := 2, dimension := 0, pts := [[], []],
    ptsd := [("w", [PtValue.scalar 0, PtValue.scalar 7])], is_changed := false }

/-- The state mgrD reaches after set_ptdata writes scalar 3 at index 0. -/
def mgrD2 : CPManager :=
  { size := [2], count := 2, dimension := 0, pts := [[], []],
    ptsd := [("w", [PtValue.scalar 3, PtValue.scalar 7])], is_changed := true }

/-- Witness for C5: a successful nonempty set_ptdata on mgrD yields mgrD2,
whose change flag the theorem shows to be true. -/
theorem is_changed_lifecycle_witness :
    CPManager.set_ptdata mgrD [("w", PtValue.scalar 3)] [0] = some mgrD2
    ∧ mgrD2.is_changed = true :=
  ⟨by decide,
   is_changed_lifecycle.2.2.2.2 mgrD [("w", PtValue.scalar 3)] [0] mgrD2
     (by decide) (by decide)⟩

/-- Counterexample to C2 as stated: the constructor silently accepts the
non-positive size 0 and returns a manager (count 0) instead of raising - the
source applies int() to each argument and computes the product with no check. -/
theorem construct_accepts_zero_size :
    CPManager.construct [0] [] =
      some { size := [0], count := 0, dimension := 0, pts := [], ptsd := [],
             is_changed := false } := by
  decide

/-- C2 amended: construction performs no size validation at all - every list
of integer sizes, non-positive entries included, is accepted, with count the
plain product; the only failing input is an empty size list, where reduce
raises a TypeError. -/
theorem construct_never_validates (args : List Nat)
    (kwargs : List (String × Nat)) (h : args ≠ []) :
    ∃ m, CPManager.construct args kwargs = some m
      ∧ m.size = args ∧ m.count = args.prod ∧ m.is_changed = false := by
  cases args with
  | nil => exact absurd rfl h
  | cons a rest =>
    refine ⟨_, rfl, rfl, ?_, rfl⟩
    exact construct_count_eq_prod a rest

/-- Witness for C2 amended, at the non-positive size list (0,). -/
theorem construct_never_validates_witness :
    (([0] : List Nat) ≠ [])
    ∧ (∃ m, CPManager.construct [0] [] = some m
        ∧ m.size = [0] ∧ m.count = ([0] : List Nat).prod ∧ m.is_changed = false) :=
  ⟨by decide, construct_never_validates [0] [] (by decide)⟩

/-- If the bulk fill loop of default_ctrlpts_set succeeds, every input point
had exactly the requested dimension. -/
theorem ctrlpts_set_go_some_lengths {dim : Nat} :
    ∀ (l : List (List ℚ)) (i : Nat) (pts_out res : List (List ℚ)),
      ctrlpts_set_go dim l i pts_out = some res → ∀ p ∈ l, p.length = dim := by
  intro l
  induction l with
  | nil =>
    intro i pts_out res _ p hp
    exact absurd hp (List.not_mem_nil p)
  | cons cpt rest ih =>
    intro i pts_out res h p hp
    simp only [ctrlpts_set_go] at h
    split at h
    · exact absurd h (by simp)
    · rename_i hlen
      split at h
      · exact absurd h (by simp)
      · rename_i pts_out2 hset
        rcases List.mem_cons.mp hp with hp1 | hp2
        · rw [hp1]; omega
        · exact ih (i + 1) pts_out2 res h p hp2

/-- Counterexample states for C6: a fresh (2,)-manager, the same manager after
assigning the empty tuple to slot 0 (dimension stays 0 = unset), and the state
after then assigning the 2-dimensional point (1, 2) to slot 1 - which the
claim says must fail, yet succeeds and re-infers the dimension as 2. -/
def mgrC0 : CPManager :=
  { size := [2], count := 2, dimension := 0, pts := [[], []], ptsd := [],
    is_changed := false }

/-- State after mgrC0 receives the empty point at slot 0. -/
def mgrC1 : CPManager :=
  { size := [2], count := 2, dimension := 0, pts := [[], []], ptsd := [],
    is_changed := true }

/-- State after mgrC1 receives the point (1, 2) at slot 1. -/
def mgrC2 : CPManager :=
  { size := [2], count := 2, dimension := 2, pts := [[], [1, 2]], ptsd := [],
    is_changed := true }

/-- Counterexample to C6 as stated: after the first point ever assigned (the
empty tuple, length 0), a later assignment of a point of different length 2
succeeds instead of failing, because the source treats the inferred dimension
0 as still unset (the check is dimension < 1) and re-infers it. -/
theorem dimension_reinference_counterexample :
    CPManager.construct [2] [] = some mgrC0
    ∧ CPManager.setitem mgrC0 (CPKey.int 0) [] = some mgrC1
    ∧ mgrC1.dimension = 0
    ∧ CPManager.setitem mgrC1 (CPKey.int 1) [1, 2] = some mgrC2
    ∧ mgrC2.dimension = 2 := by
  refine ⟨by decide, by decide, by decide, by decide, by decide⟩

/-- C6 amended: once the established dimension is at least 1 it is fixed -
every attempt to assign a point whose length differs from it fails, for single
(int or tuple key) and for bulk assignment alike; only a first assigned point
of length 0 leaves the dimension unset for re-inference. -/
theorem dimension_fixed_once_established (m : CPManager) (hd : 1 ≤ m.dimension) :
    (∀ key value, value.length ≠ m.dimension →
        CPManager.setitem m key value = none)
    ∧ (∀ value p, p ∈ value → p.length ≠ m.dimension →
        CPManager.setPoints m value = none) := by
  have hnot : ¬m.dimension < 1 := by omega
  constructor
  · intro key value hlen
    simp only [CPManager.setitem, if_neg hnot]
    rw [if_pos]
    exact hlen
  · intro value p hp hlen
    simp only [CPManager.setPoints, if_neg hnot]
    split
    · rfl
    · cases hset : default_ctrlpts_set value m.dimension m.pts with
      | none => simp [hset]
      | some res =>
        exact absurd (ctrlpts_set_go_some_lengths value 0 m.pts res hset p hp) hlen

/-- A manager whose dimension is already established as 1. -/
def mgrB : CPManager :=
  { size := [1], count := 1, dimension := 1, pts := [[0]], ptsd := [],
    is_changed := false }

/-- Witness for C6 amended: with dimension established as 1, assigning the
2-dimensional point (1, 2) fails for both assignment paths. -/
theorem dimension_fixed_once_established_witness :
    1 ≤ mgrB.dimension
    ∧ CPManager.setitem mgrB (CPKey.int 0) [1, 2] = none
    ∧ CPManager.setPoints mgrB [[1, 2]] = none :=
  ⟨by decide,
   (dimension_fixed_once_established mgrB (by decide)).1 (CPKey.int 0) [1, 2]
     (by decide),
   (dimension_fixed_once_established mgrB (by decide)).2 [[1, 2]] [1, 2]
     (by decide) (by decide)⟩

/-- C8: ptdata is total (every raising path of the source is the caught
IndexError/KeyError pair) and returns the absent sentinel None for an unknown
key or for a resolved index past the stored array, while a declared key with
an in-range resolved index returns the stored value. -/
theorem ptdata_absent_sentinel (m : CPManager) (dkey : String) (args : List Nat) :
    (m.ptsd.lookup dkey = none → m.ptdata dkey args = none)
    ∧ (∀ arr, m.ptsd.lookup dkey = some arr →
        (arr.length ≤ default_find_index m.size args →
          m.ptdata dkey args = none)
        ∧ (∀ v, arr.get? (default_find_index m.size args) = some v →
          m.ptdata dkey args = some v)) := by
  constructor
  · intro h
    simp [CPManager.ptdata, h]
  · intro arr harr
    constructor
    · intro hlen
      simp [CPManager.ptdata, harr]
      exact hlen
    · intro v hv
      simp [CPManager.ptdata, harr]
      rw [← List.get?_eq_getElem?]
      exact hv

/-- Witness for C8 on mgrD: unknown key gives none, a resolved index past the
array (coordinate 5 on shape (2,)) gives none, and the declared key at
coordinate 1 returns the stored scalar 7. -/
theorem ptdata_absent_sentinel_witness :
    CPManager.ptdata mgrD "q" [0] = none
    ∧ CPManager.ptdata mgrD "w" [5] = none
    ∧ CPManager.ptdata mgrD "w" [1] = some (PtValue.scalar 7) :=
  ⟨(ptdata_absent_sentinel mgrD "q" [0]).1 (by decide),
   ((ptdata_absent_sentinel mgrD "w" [5]).2 [PtValue.scalar 0, PtValue.scalar 7]
     (by decide)).1 (by decide),
   ((ptdata_absent_sentinel mgrD "w" [1]).2 [PtValue.scalar 0, PtValue.scalar 7]
     (by decide)).2 (PtValue.scalar 7) (by decide)⟩

/-- C10: reset leaves the change flag exactly as it was - the source's reset
touches only the base option store and the discarded re-init result, never
the _is_changed slot. -/
theorem reset_preserves_is_changed (m : CPManager) (kwargs : List (String × Nat)) :
    (m.reset kwargs).is_changed = m.is_changed := rfl

/-- Manager of shape (1,) with one scalar attribute right after construction. -/
def mgrR0 : CPManager :=
  { size := [1], count := 1, dimension := 0, pts := [[]],
    ptsd := [("w", [PtValue.scalar 0])], is_changed := false }

/-- mgrR0 after the point (5,) is assigned to slot 0. -/
def mgrR1 : CPManager :=
  { size := [1], count := 1, dimension := 1, pts := [[5]],
    ptsd := [("w", [PtValue.scalar 0])], is_changed := true }

/-- Evaluation of C1 at the failing input: construct a (1,)-manager with one
scalar attribute, assign point (5,), and call reset.  Line 348 of the source
calls func_pts_init but discards the returned pair, so the state after reset
still holds the point (5,) instead of the zero-initialized placeholder that a
fresh func_pts_init would produce (shown last). -/
theorem reset_discards_reinitialized_storage :
    CPManager.construct [1] [("w", 1)] = some mgrR0
    ∧ CPManager.setitem mgrR0 (CPKey.int 0) [5] = some mgrR1
    ∧ mgrR1.reset [("w", 1)] = mgrR1
    ∧ (mgrR1.reset [("w", 1)]).pts = [[5]]
    ∧ (default_ctrlpts_init mgrR1.count [("w", 1)]).1 = [[]]
    ∧ (mgrR1.reset [("w", 1)]).pts ≠ (default_ctrlpts_init mgrR1.count [("w", 1)]).1 := by
  refine ⟨by decide, by decide, by decide, by decide, by decide, by decide⟩

/-- Python sequence indexing with an int index: nonnegative indices read from
the front, negative indices count from the end, and anything past either end
raises IndexError (none). -/
def pyGetElem {α : Type} (l : List α) (i : Int) : Option α :=
  if 0 ≤ i then l.get? i.toNat
  else if -i ≤ (l.length : Int) then l.get? (l.length - (-i).toNat) else none

/-- While loop of make_zigzag (utilities.py lines 43-52), fuel k standing for
points_size - idx: append points[idx] going forward or points[rev_idx] (then
decrement rev_idx) going backward, advance idx, and at each multiple of
num_cols flip the direction and reset rev_idx to idx + num_cols - 1. -/
def zigzag_go {α : Type} (points : List α) (num_cols points_size : Nat) :
    Nat → Bool → Int → List α → Option (List α)
  | 0, _, _, acc => some acc
  | k + 1, fwd, rev_idx, acc =>
    let idx := points_size - (k + 1)
    match (if fwd then pyGetElem points (Int.ofNat idx) else pyGetElem points rev_idx) with
    | none => none
    | some p =>
      let idx2 := idx + 1
      if idx2 % num_cols = 0 then
        zigzag_go points num_cols points_size k (!fwd)
          (Int.ofNat (idx2 + num_cols) - 1) (acc ++ [p])
      else
        zigzag_go points num_cols points_size k fwd
          (if fwd then rev_idx else rev_idx - 1) (acc ++ [p])

/-- Embedding of make_zigzag (utilities.py lines 14-54): forward start with
rev_idx = -1; num_cols = 0 would divide by zero in idx % num_cols. -/
def make_zigzag {α : Type} (points : List α) (num_cols : Nat) : Option (List α) :=
  if num_cols = 0 then none
  else zigzag_go points num_cols points.length points.length true (-1) []

/-- Reference reordering written from the claim: rows in order, every second
row reversed (the boustrophedon path), for comparison with make_zigzag. -/
def spec_zigzag_rows {α : Type} : Bool → List (List α) → List α
  | _, [] => []
  | true, r :: rest => r ++ spec_zigzag_rows false rest
  | false, r :: rest => r.reverse ++ spec_zigzag_rows true rest

theorem pyGetElem_ofNat {α : Type} (l : List α) (n : Nat) :
    pyGetElem l (Int.ofNat n) = l.get? n := by
  simp [pyGetElem]

theorem zigzag_row_forward {α : Type} (points : List α) (w : Nat) (hw : 0 < w)
    (L : List α) :
    ∀ (seg : List α) (k : Nat) (rev : Int) (acc : List α),
      seg ≠ [] → seg.length ≤ w → seg.length ≤ k → k ≤ points.length →
      (points.length - k + seg.length) % w = 0 →
      (∀ j, j < seg.length → points.get? (points.length - k + j) = seg.get? j) →
      (∀ acc', zigzag_go points w points.length (k - seg.length) false
          (Int.ofNat (points.length - k + seg.length + w) - 1) acc' = some (acc' ++ L)) →
      zigzag_go points w points.length k true rev acc = some (acc ++ seg ++ L) := by
  intro seg
  induction seg with
  | nil => intro k rev acc hne; exact absurd rfl hne
  | cons p seg2 ih =>
    intro k rev acc _ hlw hlk hkN hmod hread hcont
    simp only [List.length_cons] at hlw hlk hmod hcont
    obtain ⟨kk, rfl⟩ : ∃ kk, k = kk + 1 := ⟨k - 1, by omega⟩
    have hscrut : pyGetElem points (Int.ofNat (points.length - (kk + 1))) = some p := by
      rw [pyGetElem_ofNat]
      simpa using hread 0 (by simp)
    simp only [zigzag_go, if_true, hscrut, Bool.not_true]
    cases seg2 with
    | nil =>
      simp only [List.length_nil] at hlw hlk hmod hcont
      have hb : (points.length - (kk + 1) + 1) % w = 0 := by
        simpa using hmod
      rw [if_pos hb]
      have h2 := hcont (acc ++ [p])
      have e1 : kk + 1 - (0 + 1) = kk := by omega
      have e2 : points.length - (kk + 1) + (0 + 1) + w
          = points.length - (kk + 1) + 1 + w := by omega
      rw [e1, e2] at h2
      rw [h2]
    | cons q rest =>
      simp only [List.length_cons] at hlw hlk hmod hcont
      have hb : ¬ (points.length - (kk + 1) + 1) % w = 0 := by
        intro hc
        have hd1 : w ∣ points.length - (kk + 1) + (rest.length + 1 + 1) :=
          Nat.dvd_of_mod_eq_zero hmod
        have hd2 : w ∣ points.length - (kk + 1) + 1 :=
          Nat.dvd_of_mod_eq_zero hc
        have hd3 : w ∣ rest.length + 1 := by
          have := Nat.dvd_sub' hd1 hd2
          have e : points.length - (kk + 1) + (rest.length + 1 + 1)
              - (points.length - (kk + 1) + 1) = rest.length + 1 := by omega
          rwa [e] at this
        have := Nat.le_of_dvd (by omega) hd3
        omega
      rw [if_neg hb]
      have h2 := ih kk rev (acc ++ [p]) (by simp)
        (by simp only [List.length_cons]; omega)
        (by simp only [List.length_cons]; omega) (by omega)
        (by
          simp only [List.length_cons]
          have e : points.length - kk + (rest.length + 1)
              = points.length - (kk + 1) + (rest.length + 1 + 1) := by omega
          rw [e]
          exact hmod)
        (by
          intro j hj
          simp only [List.length_cons] at hj
          have e : points.length - kk + j = points.length - (kk + 1) + (j + 1) := by
            omega
          rw [e]
          have := hread (j + 1) (by simp only [List.length_cons]; omega)
          simpa using this)
        (by
          intro acc'
          simp only [List.length_cons]
          have e1 : kk - (rest.length + 1) = kk + 1 - (rest.length + 1 + 1) := by omega
          have e2 : points.length - kk + (rest.length + 1)
              = points.length - (kk + 1) + (rest.length + 1 + 1) := by omega
          rw [e1, e2]
          exact hcont acc')
      rw [h2]
      simp

theorem zigzag_row_backward {α : Type} (points : List α) (w : Nat) (hw : 0 < w)
    (L : List α) :
    ∀ (seg : List α) (k : Nat) (rev : Int) (acc : List α),
      seg ≠ [] → seg.length ≤ w → seg.length ≤ k → k ≤ points.length →
      (points.length - k + seg.length) % w = 0 →
      (∀ j, j < seg.length →
        points.get? (points.length - k + 2 * seg.length - w - 1 - j) = seg.get? j) →
      rev = Int.ofNat (points.length - k + 2 * seg.length - w - 1) →
      (∀ acc', zigzag_go points w points.length (k - seg.length) true
          (Int.ofNat (points.length - k + seg.length + w) - 1) acc' = some (acc' ++ L)) →
      zigzag_go points w points.length k false rev acc = some (acc ++ seg ++ L) := by
  intro seg
  induction seg with
  | nil => intro k rev acc hne; exact absurd rfl hne
  | cons p seg2 ih =>
    intro k rev acc _ hlw hlk hkN hmod hread hrev hcont
    simp only [List.length_cons] at hlw hlk hmod hcont hrev
    obtain ⟨kk, rfl⟩ : ∃ kk, k = kk + 1 := ⟨k - 1, by omega⟩
    have hmult : w ≤ points.length - (kk + 1) + (seg2.length + 1) := by
      apply Nat.le_of_dvd (by omega)
      exact Nat.dvd_of_mod_eq_zero hmod
    simp only [List.length_cons] at hmult
    have hscrut : pyGetElem points rev = some p := by
      rw [hrev, pyGetElem_ofNat]
      simpa using hread 0 (by simp)
    simp only [zigzag_go, hscrut, Bool.not_false, Bool.false_eq_true, if_false]
    cases seg2 with
    | nil =>
      simp only [List.length_nil] at hlw hlk hmod hcont hrev
      have hb : (points.length - (kk + 1) + 1) % w = 0 := by
        simpa using hmod
      rw [if_pos hb]
      have h2 := hcont (acc ++ [p])
      have e1 : kk + 1 - (0 + 1) = kk := by omega
      have e2 : points.length - (kk + 1) + (0 + 1) + w
          = points.length - (kk + 1) + 1 + w := by omega
      rw [e1, e2] at h2
      rw [h2]
    | cons q rest =>
      simp only [List.length_cons] at hlw hlk hmod hcont hrev hmult
      have hb : ¬ (points.length - (kk + 1) + 1) % w = 0 := by
        intro hc
        have hd1 : w ∣ points.length - (kk + 1) + (rest.length + 1 + 1) :=
          Nat.dvd_of_mod_eq_zero hmod
        have hd2 : w ∣ points.length - (kk + 1) + 1 :=
          Nat.dvd_of_mod_eq_zero hc
        have hd3 : w ∣ rest.length + 1 := by
          have := Nat.dvd_sub' hd1 hd2
          have e : points.length - (kk + 1) + (rest.length + 1 + 1)
              - (points.length - (kk + 1) + 1) = rest.length + 1 := by omega
          rwa [e] at this
        have := Nat.le_of_dvd (by omega) hd3
        omega
      rw [if_neg hb]
      have h2 := ih kk (rev - 1) (acc ++ [p]) (by simp)
        (by simp only [List.length_cons]; omega)
        (by simp only [List.length_cons]; omega) (by omega)
        (by
          simp only [List.length_cons]
          have e : points.length - kk + (rest.length + 1)
              = points.length - (kk + 1) + (rest.length + 1 + 1) := by omega
          rw [e]
          exact hmod)
        (by
          intro j hj
          simp only [List.length_cons] at hj
          simp only [List.length_cons]
          have e : points.length - kk + 2 * (rest.length + 1) - w - 1 - j
              = points.length - (kk + 1) + 2 * (rest.length + 1 + 1) - w - 1 - (j + 1) := by
            omega
          rw [e]
          have := hread (j + 1) (by simp only [List.length_cons]; omega)
          simpa using this)
        (by
          rw [hrev]
          simp only [List.length_cons]
          have eY : points.length - kk + 2 * (rest.length + 1) - w - 1
              = points.length - (kk + 1) + 2 * (rest.length + 1 + 1) - w - 1 - 1 := by
            omega
          rw [eY]
          simp only [Int.ofNat_eq_coe]
          omega)
        (by
          intro acc'
          simp only [List.length_cons]
          have e1 : kk - (rest.length + 1) = kk + 1 - (rest.length + 1 + 1) := by omega
          have e2 : points.length - kk + (rest.length + 1)
              = points.length - (kk + 1) + (rest.length + 1 + 1) := by omega
          rw [e1, e2]
          exact hcont acc')
      rw [h2]
      simp

theorem zigzag_rows_go {α : Type} (points : List α) (w : Nat) (hw : 0 < w) :
    ∀ (rows : List (List α)) (k : Nat) (fwd : Bool) (rev : Int) (acc : List α),
      (∀ r ∈ rows, r.length = w) →
      k ≤ points.length →
      points.drop (points.length - k) = rows.join →
      (fwd = false → rev = Int.ofNat (points.length - k + w) - 1) →
      (points.length - k) % w = 0 →
      zigzag_go points w points.length k fwd rev acc
        = some (acc ++ spec_zigzag_rows fwd rows) := by
  intro rows
  induction rows with
  | nil =>
    intro k fwd rev acc _ hk hjoin _ _
    have hk0 : k = 0 := by
      have := congrArg List.length hjoin
      simp [List.length_drop] at this
      omega
    subst hk0
    cases fwd <;> simp [zigzag_go, spec_zigzag_rows]
  | cons r rest ih =>
    intro k fwd rev acc hlen hk hjoin hrev hmod
    have hrw : r.length = w := hlen r (by simp)
    have hkval : k = w + rest.join.length := by
      have := congrArg List.length hjoin
      simp [List.length_drop, hrw] at this
      simp only [List.length_join]
      omega
    have hne : r ≠ [] := by
      intro h
      rw [h] at hrw
      simp at hrw
      omega
    have h1 : (points.drop (points.length - k)).drop w = rest.join := by
      rw [hjoin]
      simp only [List.join_cons]
      rw [← hrw, List.drop_left]
    have h2 : (points.drop (points.length - k)).drop w
        = points.drop (points.length - k + w) := by
      rw [List.drop_drop, Nat.add_comm]
    have hdrop2 : points.drop (points.length - (k - w)) = rest.join := by
      rw [show points.length - (k - w) = points.length - k + w from by omega]
      rw [← h2, h1]
    have hlenrest : ∀ r2 ∈ rest, r2.length = w := by
      intro r2 hr2
      exact hlen r2 (by simp [hr2])
    have hmodw : (points.length - k + w) % w = 0 := by
      rw [Nat.add_mod_right]
      exact hmod
    have hreadr : ∀ j, j < r.length → points.get? (points.length - k + j) = r.get? j := by
      intro j hj
      rw [← List.get?_drop, hjoin]
      simp only [List.join_cons]
      rw [List.get?_append hj]
    cases fwd with
    | true =>
      have hcont : ∀ acc', zigzag_go points w points.length (k - r.length) false
          (Int.ofNat (points.length - k + r.length + w) - 1) acc'
            = some (acc' ++ spec_zigzag_rows false rest) := by
        intro acc'
        rw [hrw]
        apply ih (k - w) false (Int.ofNat (points.length - k + w + w) - 1) acc'
          hlenrest (by omega) hdrop2
        · intro _
          rw [show points.length - (k - w) + w = points.length - k + w + w from by omega]
        · rw [show points.length - (k - w) = points.length - k + w from by omega]
          exact hmodw
      have hrow := zigzag_row_forward points w hw (spec_zigzag_rows false rest)
        r k rev acc hne (by omega) (by omega) hk
        (by rw [hrw, Nat.add_mod_right]; exact hmod) hreadr hcont
      rw [hrow]
      simp [spec_zigzag_rows]
    | false =>
      have hcont : ∀ acc', zigzag_go points w points.length (k - r.reverse.length) true
          (Int.ofNat (points.length - k + r.reverse.length + w) - 1) acc'
            = some (acc' ++ spec_zigzag_rows true rest) := by
        intro acc'
        rw [List.length_reverse, hrw]
        apply ih (k - w) true (Int.ofNat (points.length - k + w + w) - 1) acc'
          hlenrest (by omega) hdrop2
        · intro h
          cases h
        · rw [show points.length - (k - w) = points.length - k + w from by omega]
          exact hmodw
      have hread2 : ∀ j, j < r.reverse.length →
          points.get? (points.length - k + 2 * r.reverse.length - w - 1 - j)
            = r.reverse.get? j := by
        intro j hj
        rw [List.length_reverse, hrw] at hj ⊢
        rw [show points.length - k + 2 * w - w - 1 - j
          = points.length - k + (w - 1 - j) from by omega]
        have hj2 : w - 1 - j < r.length := by omega
        rw [hreadr (w - 1 - j) hj2]
        have hjr : j < r.length := by omega
        rw [List.get?_reverse hjr, hrw]
      have hrow := zigzag_row_backward points w hw (spec_zigzag_rows true rest)
        r.reverse k rev acc (by simp [hne]) (by simp [hrw]) (by simp [hrw]; omega) hk
        (by rw [List.length_reverse, hrw, Nat.add_mod_right]; exact hmod)
        hread2
        (by
          rw [hrev rfl, List.length_reverse, hrw]
          simp only [Int.ofNat_eq_coe]
          omega)
        hcont
      rw [hrow]
      simp [spec_zigzag_rows]

theorem make_zigzag_rows {α : Type} (w : Nat) (hw : 0 < w) (rows : List (List α))
    (hlen : ∀ r ∈ rows, r.length = w) :
    make_zigzag rows.join w = some (spec_zigzag_rows true rows) := by
  unfold make_zigzag
  rw [if_neg (by omega)]
  have h := zigzag_rows_go rows.join w hw rows rows.join.length true (-1) []
    hlen le_rfl (by simp) (by intro h; cases h) (by simp)
  simpa using h

/-- C7: make_zigzag walks the flat input in row-major order reversing the
traversal direction at each row boundary - on any input that is the
concatenation of rows of a common positive width w it returns the rows in
order with every second row reversed - and in particular on the nine-point
input with row width 3 it returns (p0, p1, p2, p5, p4, p3, p6, p7, p8). -/
theorem make_zigzag_boustrophedon {α : Type} (w : Nat) (hw : 0 < w)
    (rows : List (List α)) (hlen : ∀ r ∈ rows, r.length = w)
    (p0 p1 p2 p3 p4 p5 p6 p7 p8 : α) :
    make_zigzag rows.join w = some (spec_zigzag_rows true rows)
    ∧ make_zigzag [p0, p1, p2, p3, p4, p5, p6, p7, p8] 3
        = some [p0, p1, p2, p5, p4, p3, p6, p7, p8] :=
  ⟨make_zigzag_rows w hw rows hlen, by simp [make_zigzag, zigzag_go, pyGetElem]⟩

/-- Witness for C7 at the spec test vector: three rows of width 3 over the
nine points 1..9. -/
theorem make_zigzag_boustrophedon_witness :
    (0 < 3 ∧ ∀ r ∈ [[1, 2, 3], [4, 5, 6], [7, 8, 9]], List.length r = 3)
    ∧ make_zigzag ([[1, 2, 3], [4, 5, 6], [7, 8, 9]] : List (List Nat)).join 3
        = some (spec_zigzag_rows true [[1, 2, 3], [4, 5, 6], [7, 8, 9]])
    ∧ make_zigzag [1, 2, 3, 4, 5, 6, 7, 8, 9] 3
        = some [1, 2, 3, 6, 5, 4, 7, 8, 9] :=
  ⟨⟨by decide, by decide⟩,
   (make_zigzag_boustrophedon 3 (by decide) [[1, 2, 3], [4, 5, 6], [7, 8, 9]]
     (by decide) 1 2 3 4 5 6 7 8 9).1,
   (make_zigzag_boustrophedon 3 (by decide) [[1, 2, 3], [4, 5, 6], [7, 8, 9]]
     (by decide) 1 2 3 4 5 6 7 8 9).2⟩

/-- Python int() applied to a float: truncation toward zero. -/
def pyInt (q : ℚ) : Int :=
  if 0 ≤ q then Int.floor q else Int.ceil q

/-- Embedding of compute_sample_size_from_delta (utilities.py line 216):
int(1.0 / delta) + 1. -/
def compute_sample_size_from_delta (delta : ℚ) : Int :=
  pyInt (1 / delta) + 1

/-- Embedding of compute_delta_from_sample_size (utilities.py line 205):
(domain[1] - domain[0]) / (domain_range * float(sample_size - 1)). -/
def compute_delta_from_sample_size (sample_size : Int) (domain : ℚ × ℚ)
    (domain_range : ℚ) : ℚ :=
  (domain.2 - domain.1) / (domain_range * ((sample_size - 1 : Int) : ℚ))

/-- C9: for positive delta the sample size is floor(1/delta) + 1 (truncation
toward zero agrees with floor on a nonnegative quotient), in particular 11 at
delta = 1/10; and for sample_size > 1 the delta formula is the quotient
(domain end - domain start) / (domain_range * (sample_size - 1)). -/
theorem sample_size_delta_conversions (delta : ℚ) (hdelta : 0 < delta)
    (sample_size : Int) (hs : 1 < sample_size)
    (domain : ℚ × ℚ) (domain_range : ℚ) :
    compute_sample_size_from_delta delta = Int.floor (1 / delta) + 1
    ∧ compute_sample_size_from_delta (1 / 10) = 11
    ∧ compute_delta_from_sample_size sample_size domain domain_range
        = (domain.2 - domain.1) / (domain_range * ((sample_size : ℚ) - 1)) := by
  refine ⟨?_, ?_, ?_⟩
  · have h1 : (0 : ℚ) ≤ 1 / delta := by positivity
    unfold compute_sample_size_from_delta pyInt
    rw [if_pos h1]
  · norm_num [compute_sample_size_from_delta, pyInt]
  · unfold compute_delta_from_sample_size
    push_cast
    ring_nf

/-- Witness for C9 at delta = 1/10, sample_size = 11, domain (0, 1) with
range 1. -/
theorem sample_size_delta_conversions_witness :
    (0 : ℚ) < 1 / 10 ∧ (1 : Int) < 11
    ∧ (compute_sample_size_from_delta (1 / 10) = Int.floor ((1 : ℚ) / (1 / 10)) + 1
      ∧ compute_sample_size_from_delta (1 / 10) = 11
      ∧ compute_delta_from_sample_size 11 (0, 1) 1
          = (((0, 1) : ℚ × ℚ).2 - ((0, 1) : ℚ × ℚ).1) / (1 * (((11 : Int) : ℚ) - 1))) :=
  ⟨by norm_num, by norm_num,
   sample_size_delta_conversions (1 / 10) (by norm_num) 11 (by norm_num) (0, 1) 1⟩

/-- Modelled from the spec: linalg.vector_generate of the external linear
algebra collaborator - the vector from point a to point b, componentwise
b - a. -/
def vector_generate (a b : List ℚ) : List ℚ :=
  (a.zip b).map (fun pr => pr.2 - pr.1)

/-- Modelled from the spec: linalg.point_translate of the external linear
algebra collaborator - the point plus the vector, componentwise. -/
def point_translate (p v : List ℚ) : List ℚ :=
  (p.zip v).map (fun pr => pr.1 + pr.2)

/-- First loop of make_quadtree (utilities.py lines 119-124): points2d is a
list of size_v rows, row j holding points[i + j*size_u] for i < size_u;
an index past the flat list raises IndexError. -/
def build_points2d (points : List (List ℚ)) (size_u size_v : Nat) :
    Option (List (List (List ℚ))) :=
  (List.range size_v).mapM
    (fun j => (List.range size_u).mapM (fun i => points.get? (i + j * size_u)))

/-- Double Python indexing points2d[ui][vi] with int indices (negative
indices wrap, as the source comment on line 131 notes). -/
def pget (points2d : List (List (List ℚ))) (ui vi : Int) : Option (List ℚ) :=
  match pyGetElem points2d ui with
  | none => none
  | some row => pyGetElem row vi

/-- Body of the traversal of make_quadtree (utilities.py lines 128-160) for
one loop position (u, v): the cell list starts with points2d[u][v], then for
each of the four directions u+1, v+1, u-1, v-1 either appends the in-grid
neighbor, or, when extrapolate is set, appends the boundary point translated
by the vector from the opposite interior neighbor to it; with extrapolate
unset the direction contributes nothing. -/
def quadtree_cell (points2d : List (List (List ℚ))) (size_u size_v : Nat)
    (extrapolate : Bool) (u v : Nat) : Option (List (List ℚ)) := do
  let selfp ← pget points2d (u : Int) (v : Int)
  let t1 ←
    if u + 1 < size_u then do
      let p ← pget points2d ((u : Int) + 1) (v : Int)
      pure [p]
    else if extrapolate then do
      let a ← pget points2d ((u : Int) - 1) (v : Int)
      let b ← pget points2d (u : Int) (v : Int)
      pure [point_translate b (vector_generate a b)]
    else pure []
  let t2 ←
    if v + 1 < size_v then do
      let p ← pget points2d (u : Int) ((v : Int) + 1)
      pure [p]
    else if extrapolate then do
      let a ← pget points2d (u : Int) ((v : Int) - 1)
      let b ← pget points2d (u : Int) (v : Int)
      pure [point_translate b (vector_generate a b)]
    else pure []
  let t3 ←
    if (u : Int) - 1 ≥ 0 then do
      let p ← pget points2d ((u : Int) - 1) (v : Int)
      pure [p]
    else if extrapolate then do
      let a ← pget points2d ((u : Int) + 1) (v : Int)
      let b ← pget points2d (u : Int) (v : Int)
      pure [point_translate b (vector_generate a b)]
    else pure []
  let t4 ←
    if (v : Int) - 1 ≥ 0 then do
      let p ← pget points2d (u : Int) ((v : Int) - 1)
      pure [p]
    else if extrapolate then do
      let a ← pget points2d (u : Int) ((v : Int) + 1)
      let b ← pget points2d (u : Int) (v : Int)
      pure [point_translate b (vector_generate a b)]
    else pure []
  pure (selfp :: (t1 ++ t2 ++ t3 ++ t4))

/-- Embedding of make_quadtree (utilities.py lines 89-163): build points2d,
then emit one cell tuple per loop position, v outer and u inner. -/
def make_quadtree (points : List (List ℚ)) (size_u size_v : Nat)
    (extrapolate : Bool) : Option (List (List (List ℚ))) := do
  let points2d ← build_points2d points size_u size_v
  ((List.range size_v).flatMap
      (fun v => (List.range size_u).map (fun u => (u, v)))).mapM
    (fun uv => quadtree_cell points2d size_u size_v extrapolate uv.1 uv.2)

/-- C3 evaluated at the failing input: on the non-square 3-by-2 grid of six
points the traversal reads points2d[u][v] although points2d was built with v
as the row index, so at u = 2 it indexes past the two rows and raises
IndexError (none) instead of emitting a tuple per grid cell as the claim
demands; on a square 2-by-2 grid, where the two index orders coincide up to
transposition, every emitted cell is its own point followed by exactly the
two existing neighbors in the order east, north, west, south filtered by
existence, with no self-duplication. -/
theorem make_quadtree_nonsquare_crash :
    make_quadtree [[0], [1], [2], [3], [4], [5]] 3 2 false = none
    ∧ make_quadtree [[0], [1], [2], [3]] 2 2 false =
        some [[[0], [2], [1]], [[2], [3], [0]], [[1], [3], [0]], [[3], [1], [2]]] := by
  refine ⟨by decide, by decide⟩
